import Mathlib

/-!
Verification of the retrieval / chunking / checklist core of an ADGM
document-review assistant.  Python sources are shallowly embedded: Python
`str` is modelled by `String` (or `List Char` where positional slicing
matters), Python lists by `List`, Python dicts used as string-keyed records
by association lists, fallible calls by `Except`/`Option`, and external
ML components (embedder, cross-encoder) by explicit score inputs.
-/

/-- Charwise lower-casing, the model of Python `str.lower()` as used on the
ASCII scope tags of `src/agent/rag/ingest.py`. -/
def lowerStr (s : String) : String := ⟨s.data.map Char.toLower⟩

/-- Model of the Python substring test `needle in hay`. -/
def substrB (needle hay : List Char) : Bool :=
  hay.tails.any (fun t => needle.isPrefixOf t)

/-- A retrieval candidate of `query_improved` (ingest.py lines 210-213):
the chunk text paired with its string-valued metadata dict. -/
structure Candidate where
  text : String
  meta : List (String × String)
deriving DecidableEq, Repr

/-- The scope predicate of ingest.py lines 216-219: some requested scope,
lower-cased, is a substring of the candidate's lower-cased flattened scope
metadata (`m.get("scope", "")`). -/
def scopeMatch (filter_scopes : List String) (c : Candidate) : Bool :=
  (filter_scopes.map lowerStr).any
    (fun s => substrB s.data (lowerStr ((c.meta.lookup "scope").getD "")).data)

/-- The filtered list built at ingest.py lines 217-220, before the
non-emptying fallback. -/
def scope_filter_raw (filter_scopes : List String) (candidates : List Candidate) :
    List Candidate :=
  candidates.filter (scopeMatch filter_scopes)

/-- The scope-filter stage of `query_improved` (ingest.py lines 215-222):
skipped when no scopes are requested; otherwise the filtered list replaces
the candidates only when it is non-empty. -/
def scope_filter_stage (filter_scopes : List String) (candidates : List Candidate) :
    List Candidate :=
  if filter_scopes.isEmpty then candidates
  else if (scope_filter_raw filter_scopes candidates).isEmpty then candidates
  else scope_filter_raw filter_scopes candidates

/-- The source-id predicate of ingest.py line 225: `m.get("source_id")` is a
member of the allowlist (an absent key never matches). -/
def sourceIdMatch (filter_source_ids : List String) (c : Candidate) : Bool :=
  match c.meta.lookup "source_id" with
  | none => false
  | some v => filter_source_ids.contains v

/-- The filtered list built at ingest.py line 225, before the fallback. -/
def source_id_filter_raw (filter_source_ids : List String)
    (candidates : List Candidate) : List Candidate :=
  candidates.filter (sourceIdMatch filter_source_ids)

/-- The source-id filter stage of `query_improved` (ingest.py lines 224-227),
with the same non-emptying fallback as the scope stage. -/
def source_id_filter_stage (filter_source_ids : List String)
    (candidates : List Candidate) : List Candidate :=
  if filter_source_ids.isEmpty then candidates
  else if (source_id_filter_raw filter_source_ids candidates).isEmpty then candidates
  else source_id_filter_raw filter_source_ids candidates

/-- One chunk-producing step of `chunk_text` (ingest.py lines 104-107): the
slice `text[start:end]` with `end = min(len(text), start + size)`, appended
only if non-empty. -/
def chunkPre (text : List Char) (size start : Nat) : List (List Char) :=
  if ((text.drop start).take (min text.length (start + size) - start)).isEmpty then []
  else [(text.drop start).take (min text.length (start + size) - start)]

/-- Fuel-indexed model of the `while start < len(text)` loop of `chunk_text`
(ingest.py lines 100-111).  `none` means the fuel ran out, i.e. the loop has
not finished within that many iterations.  The next start offset
`max(0, end - overlap)` is truncated `Nat` subtraction. -/
def chunkLoop (text : List Char) (size overlap : Nat) : Nat → Nat → Option (List (List Char))
  | _, 0 => none
  | start, fuel+1 =>
    if start < text.length then
      if min text.length (start + size) = text.length then
        some (chunkPre text size start)
      else
        match chunkLoop text size overlap (min text.length (start + size) - overlap) fuel with
        | none => none
        | some rest => some (chunkPre text size start ++ rest)
    else some []

/-- `chunk_text(text, size, overlap)` of ingest.py lines 100-111, run with
fuel `len(text) + 1`, which is enough for every terminating configuration
(each iteration advances `start` by at least one when `overlap < size`). -/
def chunk_text (text : List Char) (size overlap : Nat) : Option (List (List Char)) :=
  chunkLoop text size overlap 0 (text.length + 1)

/-- Termination predicate for the `chunk_text` loop: the control state is the
current `start` offset, and the constructors are exactly the three ways an
iteration can go at ingest.py lines 103-110 (loop guard fails; `end`
reached `len(text)` and the loop breaks; the loop continues at
`max(0, end - overlap)`). -/
inductive ChunkLoopTerm (len size overlap : Nat) : Nat → Prop
  | exit (start : Nat) : len ≤ start → ChunkLoopTerm len size overlap start
  | last (start : Nat) : start < len → min len (start + size) = len →
      ChunkLoopTerm len size overlap start
  | step (start : Nat) : start < len → min len (start + size) ≠ len →
      ChunkLoopTerm len size overlap (min len (start + size) - overlap) →
      ChunkLoopTerm len size overlap start

/-- Reassembly of a chunk list as described by the spec: concatenate the
chunks after removing from every chunk after the first its leading
`overlap` characters. -/
def glue (overlap : Nat) : List (List Char) → List Char
  | [] => []
  | c :: rest => c ++ (rest.map (List.drop overlap)).flatten

/-- The checklist table `REQUIRED_DOCS_BY_PROCESS` of
`src/agent/process/checklists.py` lines 7-25, as an association list. -/
def REQUIRED_DOCS_BY_PROCESS : List (String × List String) := [
  ("Company Incorporation (Private Company)",
    ["Articles of Association", "Board Resolution", "Incorporation Application Form",
     "UBO Declaration Form", "Register of Members and Directors"]),
  ("Employment Compliance", ["Employment Contract"]),
  ("Data Protection Compliance", ["Appropriate Policy Document"]),
  ("AoA Amendment", ["Articles of Association", "Shareholder Resolution"])]

/-- The composite-requirement table `SYNONYMS` of checklists.py lines 28-31.
The Python value is a set of labels; membership is all that is ever used of
it, so a list models it. -/
def SYNONYMS : List (String × List String) := [
  ("Register of Members and Directors", ["Register of Members", "Register of Directors"])]

/-- The requirement-classifying loop of `compute_missing_docs`
(checklists.py lines 56-77), walking the required list in order.  The dead
"Board Resolution"/"Shareholder Resolution" branch of lines 72-75 is kept:
it appends to `missing` exactly like the fall-through. -/
def computeMissingGo (uploaded_set : List String) : List String → List String × List String
  | [] => ([], [])
  | req :: rest =>
    let r := computeMissingGo uploaded_set rest
    match SYNONYMS.lookup req with
    | some parts =>
        if parts.all (fun p => uploaded_set.contains p) then (req :: r.1, r.2)
        else (r.1, req :: r.2)
    | none =>
        if uploaded_set.contains req then (req :: r.1, r.2)
        else if req == "Board Resolution" && uploaded_set.contains "Shareholder Resolution" then
          (r.1, req :: r.2)
        else (r.1, req :: r.2)

/-- `compute_missing_docs(process, uploaded_doc_types)` of checklists.py
lines 49-79.  Python's `set(uploaded_doc_types)` is modelled by membership
tests on the list itself, which agree with set membership. -/
def compute_missing_docs (process : String) (uploaded_doc_types : List String) :
    List String × List String :=
  computeMissingGo uploaded_doc_types ((REQUIRED_DOCS_BY_PROCESS.lookup process).getD [])

/-- The claim's classification of one requirement label: a composite is
present iff all of its constituent labels were uploaded, any other label is
present iff it was itself uploaded. -/
def requirementPresent (uploaded : List String) (req : String) : Bool :=
  match SYNONYMS.lookup req with
  | some parts => parts.all (fun p => uploaded.contains p)
  | none => uploaded.contains req

/-- `infer_process(doc_types)` of `src/agent/process/inference.py` lines
7-29.  The Python `Counter` lookups `counts[x] >= 1` are `List.count`
bounds. -/
def infer_process (doc_types : List String) : String :=
  if 1 ≤ doc_types.count "Shareholder Resolution" ∧
      1 ≤ doc_types.count "Articles of Association" then "AoA Amendment"
  else if (1 ≤ doc_types.count "Articles of Association" ∧
      (1 ≤ doc_types.count "Shareholder Resolution" ∨
        1 ≤ doc_types.count "Board Resolution")) ∨
      1 ≤ doc_types.count "Incorporation Application Form" then
    "Company Incorporation (Private Company)"
  else if 1 ≤ doc_types.count "Employment Contract" then "Employment Compliance"
  else if 1 ≤ doc_types.count "Appropriate Policy Document" then "Data Protection Compliance"
  else "Unknown"

/-- The claim's reading of the same rules, with membership tests in place of
counter lookups. -/
def inferProcessClaim (doc_types : List String) : String :=
  if "Shareholder Resolution" ∈ doc_types ∧ "Articles of Association" ∈ doc_types then
    "AoA Amendment"
  else if ("Articles of Association" ∈ doc_types ∧
      ("Shareholder Resolution" ∈ doc_types ∨ "Board Resolution" ∈ doc_types)) ∨
      "Incorporation Application Form" ∈ doc_types then
    "Company Incorporation (Private Company)"
  else if "Employment Contract" ∈ doc_types then "Employment Compliance"
  else if "Appropriate Policy Document" ∈ doc_types then "Data Protection Compliance"
  else "Unknown"

/-- The pair list sorted at ingest.py line 234:
`sorted(zip(candidates, scores), key=lambda x: x[1], reverse=True)`.
Python's sort is stable and `reverse=True` keeps equal keys in original
order, which is `mergeSort` with the reflexive descending comparison.
Cross-encoder scores are modelled as rationals. -/
def rerankedPairs (candidates : List Candidate) (scores : List ℚ) :
    List (Candidate × ℚ) :=
  (candidates.zip scores).mergeSort (fun a b => decide (b.2 ≤ a.2))

/-- The re-ranking step of `query_improved` (ingest.py lines 229-237).
`crossEncoderAvail` models `CrossEncoder is not None`; `scores?` is the
outcome of constructing the model and calling `predict` (`none` models a
raised exception, swallowed by the bare `except` at line 236). -/
def rerank_step (use_reranker crossEncoderAvail : Bool) (scores? : Option (List ℚ))
    (candidates : List Candidate) : List Candidate :=
  if use_reranker && crossEncoderAvail && !candidates.isEmpty then
    match scores? with
    | none => candidates
    | some scores => (rerankedPairs candidates scores).map Prod.fst
  else candidates

/-- `_resolve_source_path(root_dir, rel_path)` of ingest.py lines 53-61.
`exi` models `os.path.exists`; `os.path.join` is separator concatenation. -/
def resolve_source_path (exi : String → Bool) (root_dir rel_path : String) :
    Option String :=
  if exi (root_dir ++ "/" ++ rel_path) then some (root_dir ++ "/" ++ rel_path)
  else if exi (root_dir ++ "/data/" ++ rel_path) then some (root_dir ++ "/data/" ++ rel_path)
  else none

/-- `_read_text(abs_path)` of ingest.py lines 64-90, abstracted over the
file's (already split, lower-cased below) extension, the availability of the
three optional parsers, and the outcome of each fallible external call: the
html, pdf and docx branches (open + parse), and the raw text read of lines
86-90.  Only the raw read sits inside a `try/except`; an `.error` from a
selected parser branch is returned as-is, modelling the exception
propagating. -/
def read_text (ext : String) (bsAvail pypdfAvail docxAvail : Bool)
    (htmlRes pdfRes docxRes rawRes : Except Unit String) : Except Unit String :=
  if (lowerStr ext == ".html" || lowerStr ext == ".htm") && bsAvail then htmlRes
  else if lowerStr ext == ".pdf" && pypdfAvail then pdfRes
  else if lowerStr ext == ".docx" && docxAvail then docxRes
  else match rawRes with
    | .ok s => .ok s
    | .error _ => .ok ""

/-- Whether `_read_text` dispatches to one of the three parser branches
rather than the guarded raw-read fallback (ingest.py lines 68-84). -/
def selectsParserBranch (ext : String) (bsAvail pypdfAvail docxAvail : Bool) : Bool :=
  ((lowerStr ext == ".html" || lowerStr ext == ".htm") && bsAvail) ||
    (lowerStr ext == ".pdf" && pypdfAvail) || (lowerStr ext == ".docx" && docxAvail)

/-- `read_text_from_source(root_dir, source)` of ingest.py lines 93-97:
an unresolvable path yields `""`, otherwise the file is read.  `reader`
is `_read_text` applied to the resolved absolute path. -/
def read_text_from_source (exi : String → Bool) (root_dir rel_path : String)
    (reader : String → Except Unit String) : Except Unit String :=
  match resolve_source_path exi root_dir rel_path with
  | none => .ok ""
  | some p => reader p

/-- One raw entry of the manifest's `sources` array
(`src/agent/knowledge/manifest.py` lines 32-42): each field is `some` when
the JSON object has the key.  `citation` and `scope` are read with
`item.get(...)` defaults, the other four with raising `item[...]` lookups. -/
structure RawItem where
  idF : Option String
  titleF : Option String
  typeF : Option String
  pathF : Option String
  citationF : Option String
  scopeF : Option (List String)
deriving DecidableEq, Repr

/-- A loaded manifest entry, `SourceEntry` of manifest.py lines 12-19. -/
structure SourceEntry where
  id : String
  title : String
  type : String
  path : String
  citation : String
  scope : List String
deriving DecidableEq, Repr

/-- The spec's error taxonomy for manifest loading.  The Python code raises
built-in exceptions (`FileNotFoundError`/`OSError` from `open`,
`json.JSONDecodeError` from `json.load`, `KeyError` from `item[...]`); the
embedding names the three failure shapes. -/
inductive ManifestError
  | fileMissing
  | malformed
  | missingField (field : String)
deriving DecidableEq, Repr

/-- `SourcesManifest` of manifest.py lines 22-24. -/
structure SourcesManifest where
  sources : List SourceEntry
deriving DecidableEq, Repr

/-- Construction of one `SourceEntry` (manifest.py lines 33-41).  The
required keys are demanded in the order Python evaluates the constructor
arguments: `id`, `title`, `type`, `path`. -/
def parseEntry (item : RawItem) : Except ManifestError SourceEntry :=
  match item.idF, item.titleF, item.typeF, item.pathF with
  | none, _, _, _ => .error (.missingField "id")
  | some _, none, _, _ => .error (.missingField "title")
  | some _, some _, none, _ => .error (.missingField "type")
  | some _, some _, some _, none => .error (.missingField "path")
  | some i, some t, some ty, some p =>
      .ok ⟨i, t, ty, p, item.citationF.getD "", item.scopeF.getD []⟩

/-- The entry loop of `SourcesManifest.load` (manifest.py lines 31-42): the
first raising lookup aborts the whole load. -/
def parseEntries : List RawItem → Except ManifestError (List SourceEntry)
  | [] => .ok []
  | item :: rest =>
    match parseEntry item with
    | .error e => .error e
    | .ok s =>
      match parseEntries rest with
      | .error e => .error e
      | .ok ss => .ok (s :: ss)

/-- `SourcesManifest.load(path)` of manifest.py lines 26-43.  The input
models the file system and JSON layer: `none` is a missing file,
`some (.error ())` a file whose contents `json.load` rejects, and
`some (.ok sources?)` a parsed JSON object whose `sources` key
(`data.get("sources", [])`) holds the given entries when present. -/
def SourcesManifest.load (file : Option (Except Unit (Option (List RawItem)))) :
    Except ManifestError SourcesManifest :=
  match file with
  | none => .error .fileMissing
  | some (.error _) => .error .malformed
  | some (.ok sources?) =>
    match parseEntries (sources?.getD []) with
    | .error e => .error e
    | .ok entries => .ok ⟨entries⟩

/-- The claim's failure condition for manifest loading: the file is missing,
malformed, or some source entry lacks one of the four required fields. -/
def itemComplete (item : RawItem) : Bool :=
  item.idF.isSome && item.titleF.isSome && item.typeF.isSome && item.pathF.isSome

/-- The claim-side predicate: when loading should fail. -/
def loadShouldFail (file : Option (Except Unit (Option (List RawItem)))) : Bool :=
  match file with
  | none => true
  | some (.error _) => true
  | some (.ok sources?) => !(sources?.getD []).all itemComplete

theorem scope_filter_stage_spec (fs : List String) (cs : List Candidate) (h : cs ≠ []) :
    scope_filter_stage fs cs ≠ [] ∧
      (scope_filter_raw fs cs = [] → scope_filter_stage fs cs = cs) := by
  unfold scope_filter_stage
  split_ifs with h1 h2
  · exact ⟨h, fun _ => rfl⟩
  · exact ⟨h, fun _ => rfl⟩
  · refine ⟨fun hc => h2 (List.isEmpty_iff.mpr hc), fun hc => absurd (List.isEmpty_iff.mpr hc) h2⟩

theorem source_id_filter_stage_spec (ids : List String) (cs : List Candidate) (h : cs ≠ []) :
    source_id_filter_stage ids cs ≠ [] ∧
      (source_id_filter_raw ids cs = [] → source_id_filter_stage ids cs = cs) := by
  unfold source_id_filter_stage
  split_ifs with h1 h2
  · exact ⟨h, fun _ => rfl⟩
  · exact ⟨h, fun _ => rfl⟩
  · refine ⟨fun hc => h2 (List.isEmpty_iff.mpr hc), fun hc => absurd (List.isEmpty_iff.mpr hc) h2⟩

/-- C1: on a non-empty candidate list, the scope-filter stage and then the
source-id-filter stage of `query_improved` never produce an empty list, and
at each stage independently an empty filtered set means the stage returns
its pre-filter input unchanged. -/
theorem C1_filter_fallback (fs ids : List String) (cs : List Candidate) (h : cs ≠ []) :
    scope_filter_stage fs cs ≠ [] ∧
    source_id_filter_stage ids (scope_filter_stage fs cs) ≠ [] ∧
    (scope_filter_raw fs cs = [] → scope_filter_stage fs cs = cs) ∧
    (source_id_filter_raw ids (scope_filter_stage fs cs) = [] →
      source_id_filter_stage ids (scope_filter_stage fs cs) = scope_filter_stage fs cs) := by
  obtain ⟨h1, h2⟩ := scope_filter_stage_spec fs cs h
  obtain ⟨h3, h4⟩ := source_id_filter_stage_spec ids _ h1
  exact ⟨h1, h3, h2, h4⟩

/-- C1 witness: a concrete non-empty candidate list survives a scope filter
and a source-id filter that match nothing. -/
theorem C1_filter_fallback_witness :
    ([⟨"t", [("scope", "Employment Contracts"), ("source_id", "s1")]⟩] : List Candidate) ≠ [] ∧
    source_id_filter_stage ["s9"]
      (scope_filter_stage ["zzz"]
        [⟨"t", [("scope", "Employment Contracts"), ("source_id", "s1")]⟩]) ≠ [] :=
  ⟨by simp,
   (C1_filter_fallback ["zzz"] ["s9"]
     [⟨"t", [("scope", "Employment Contracts"), ("source_id", "s1")]⟩] (by simp)).2.1⟩

/-- C10: a process name that is not a key of `REQUIRED_DOCS_BY_PROCESS`
yields the empty present and missing lists, for every uploaded list. -/
theorem C10_unknown_process (process : String) (uploaded : List String)
    (h : REQUIRED_DOCS_BY_PROCESS.lookup process = none) :
    compute_missing_docs process uploaded = ([], []) := by
  unfold compute_missing_docs
  rw [h]
  rfl

/-- C10 witness at a concrete unknown process name. -/
theorem C10_unknown_process_witness :
    REQUIRED_DOCS_BY_PROCESS.lookup "Fund Registration" = none ∧
    compute_missing_docs "Fund Registration" ["Articles of Association"] = ([], []) :=
  ⟨by decide, C10_unknown_process "Fund Registration" ["Articles of Association"] (by decide)⟩

theorem computeMissingGo_eq_filter (uploaded : List String) (l : List String) :
    computeMissingGo uploaded l =
      (l.filter (requirementPresent uploaded),
       l.filter (fun r => !(requirementPresent uploaded r))) := by
  induction l with
  | nil => rfl
  | cons req rest ih =>
    unfold computeMissingGo
    rw [ih, List.filter_cons, List.filter_cons]
    cases hsyn : SYNONYMS.lookup req with
    | some parts =>
      have hreq : requirementPresent uploaded req = parts.all (fun p => uploaded.contains p) := by
        unfold requirementPresent; rw [hsyn]
      rw [hreq]
      by_cases hall : parts.all (fun p => uploaded.contains p) = true
      · rw [hall]; simp; simpa using hall
      · rw [Bool.eq_false_iff.mpr hall]; simp; simpa using hall
    | none =>
      have hreq : requirementPresent uploaded req = uploaded.contains req := by
        unfold requirementPresent; rw [hsyn]
      rw [hreq]
      by_cases hup : uploaded.contains req = true
      · rw [hup]; simp
      · rw [Bool.eq_false_iff.mpr hup]; simp [ite_self]

/-- C5: `compute_missing_docs` classifies each requirement of the process's
required list, in order: a requirement registered in `SYNONYMS` is present
iff all of its constituent labels were uploaded, any other requirement is
present iff it was itself uploaded; everything else lands in `missing`, and
both outputs are order-preserving sublists of the required list — stated as
a filter characterization.  At the claimed concrete input the missing list
is exactly the unsatisfied composite. -/
theorem C5_checklist_classification (process : String) (uploaded : List String) :
    compute_missing_docs process uploaded =
      (((REQUIRED_DOCS_BY_PROCESS.lookup process).getD []).filter
         (requirementPresent uploaded),
       ((REQUIRED_DOCS_BY_PROCESS.lookup process).getD []).filter
         (fun r => !(requirementPresent uploaded r))) ∧
    compute_missing_docs "Company Incorporation (Private Company)"
        ["Articles of Association", "Board Resolution", "Incorporation Application Form",
         "UBO Declaration Form", "Register of Members"] =
      (["Articles of Association", "Board Resolution", "Incorporation Application Form",
        "UBO Declaration Form"], ["Register of Members and Directors"]) :=
  ⟨computeMissingGo_eq_filter uploaded _, rfl⟩

/-- C6: `infer_process` agrees with the claim's fixed-priority membership
rules (first match wins), and gives the three claimed concrete answers. -/
theorem C6_infer_process_rules (l : List String) :
    infer_process l = inferProcessClaim l ∧
    infer_process ["Employment Contract"] = "Employment Compliance" ∧
    infer_process ["Articles of Association", "Shareholder Resolution"] = "AoA Amendment" ∧
    infer_process [] = "Unknown" := by
  refine ⟨?_, rfl, rfl, rfl⟩
  have hmem : ∀ s : String, (1 ≤ l.count s) ↔ s ∈ l := fun s => List.count_pos_iff
  unfold infer_process inferProcessClaim
  simp only [hmem]

theorem glue_nil (overlap : Nat) : glue overlap [] = [] := rfl

theorem glue_cons (overlap : Nat) (c : List Char) (rest : List (List Char)) :
    glue overlap (c :: rest) = c ++ (rest.map (List.drop overlap)).flatten := rfl

theorem chunkPre_of_lt (text : List Char) (size start : Nat)
    (hs : start < text.length) (hsize : 0 < size) :
    chunkPre text size start
      = [(text.drop start).take (min text.length (start + size) - start)] := by
  have hlen : 0 < ((text.drop start).take (min text.length (start + size) - start)).length := by
    rw [List.length_take, List.length_drop]
    omega
  have hc : ¬((text.drop start).take (min text.length (start + size) - start)).isEmpty = true := by
    rw [List.isEmpty_iff]
    intro he
    rw [he] at hlen
    simp at hlen
  unfold chunkPre
  rw [if_neg hc]

theorem chunkLoop_sound (text : List Char) (size overlap : Nat) (h : overlap < size) :
    ∀ fuel start, text.length - start < fuel →
      ∃ cs, chunkLoop text size overlap start fuel = some cs ∧
        glue overlap cs = text.drop start ∧
        (cs.map (List.drop overlap)).flatten = text.drop (start + overlap) ∧
        (start < text.length → cs ≠ []) ∧
        (text.length ≤ start → cs = []) := by
  intro fuel
  induction fuel with
  | zero => intro start hf; omega
  | succ fuel ih =>
    intro start hf
    by_cases hs : start < text.length
    · have hsize : 0 < size := by omega
      have hchunk := chunkPre_of_lt text size start hs hsize
      by_cases hend : min text.length (start + size) = text.length
      · refine ⟨chunkPre text size start, ?_, ?_, ?_, fun _ => ?_,
          fun hge => absurd hs (by omega)⟩
        · unfold chunkLoop
          rw [if_pos hs, if_pos hend]
        · rw [hchunk, hend, glue_cons]
          rw [List.take_of_length_le (by rw [List.length_drop])]
          simp
        · rw [hchunk, hend]
          simp only [List.map_cons, List.map_nil, List.flatten_cons, List.flatten_nil,
            List.append_nil]
          rw [List.take_of_length_le (by rw [List.length_drop]), List.drop_drop]
        · rw [hchunk]; simp
      · have hlt : start + size < text.length := by omega
        have hmin : min text.length (start + size) = start + size := by omega
        have hnext : text.length - (min text.length (start + size) - overlap) < fuel := by omega
        obtain ⟨cs', hcs', hglue', hflat', hne', hnil'⟩ :=
          ih (min text.length (start + size) - overlap) hnext
        have hso : min text.length (start + size) - overlap + overlap = start + size := by omega
        rw [hso] at hflat'
        refine ⟨chunkPre text size start ++ cs', ?_, ?_, ?_, fun _ => ?_,
          fun hge => absurd hs (by omega)⟩
        · unfold chunkLoop
          rw [if_pos hs, if_neg hend, hcs']
        · rw [hchunk, hmin, Nat.add_sub_cancel_left, List.singleton_append, glue_cons, hflat']
          rw [← List.drop_drop]
          exact List.take_append_drop size (text.drop start)
        · rw [hchunk, hmin, Nat.add_sub_cancel_left, List.singleton_append]
          simp only [List.map_cons, List.flatten_cons]
          rw [hflat', List.drop_take, List.drop_drop]
          conv_rhs => rw [← List.take_append_drop (size - overlap) (text.drop (start + overlap))]
          congr 1
          rw [List.drop_drop]
          congr 1
          omega
        · rw [hchunk]; simp
    · refine ⟨[], ?_, ?_, ?_, fun hc => absurd hc hs, fun _ => rfl⟩
      · unfold chunkLoop; rw [if_neg hs]
      · rw [glue_nil, List.drop_eq_nil_of_le (by omega)]
      · rw [List.map_nil, List.flatten_nil, List.drop_eq_nil_of_le (by omega)]

/-- C2: for `0 <= overlap < size`, `chunk_text` terminates (returns `some`)
and concatenating its chunks with each later chunk's leading `overlap`
characters removed reproduces the text exactly; empty text yields the empty
chunk sequence. -/
theorem C2_chunk_reassembly (text : List Char) (size overlap : Nat) (h : overlap < size) :
    ∃ cs, chunk_text text size overlap = some cs ∧ glue overlap cs = text ∧
      (text = [] → cs = []) := by
  obtain ⟨cs, h1, h2, h3, h4, h5⟩ :=
    chunkLoop_sound text size overlap h (text.length + 1) 0 (by omega)
  refine ⟨cs, h1, ?_, fun ht => h5 (by simp [ht])⟩
  simpa using h2

/-- C2 witness at text `"abcde"`, size 3, overlap 1. -/
theorem C2_chunk_reassembly_witness :
    1 < 3 ∧ ∃ cs, chunk_text "abcde".data 3 1 = some cs ∧ glue 1 cs = "abcde".data ∧
      ("abcde".data = [] → cs = []) :=
  ⟨by decide, C2_chunk_reassembly "abcde".data 3 1 (by decide)⟩

theorem chunkLoop_count (text : List Char) (size overlap : Nat) (h : overlap < size) :
    ∀ fuel start cs, start + overlap < text.length →
      chunkLoop text size overlap start fuel = some cs →
      cs.length = (text.length - start - overlap + (size - overlap) - 1) / (size - overlap) := by
  intro fuel
  induction fuel with
  | zero => intro start cs hlt hck; simp [chunkLoop] at hck
  | succ fuel ih =>
    intro start cs hlt hck
    have hs : start < text.length := by omega
    have hsize : 0 < size := by omega
    have hchunk := chunkPre_of_lt text size start hs hsize
    unfold chunkLoop at hck
    rw [if_pos hs] at hck
    by_cases hend : min text.length (start + size) = text.length
    · rw [if_pos hend, hchunk] at hck
      have hcs : cs = [(text.drop start).take (min text.length (start + size) - start)] := by
        injection hck with hck'
        exact hck'.symm
      have hle : text.length ≤ start + size := by omega
      rw [hcs, List.length_singleton]
      exact (Nat.div_eq_of_lt_le (by omega) (by omega)).symm
    · rw [if_neg hend] at hck
      have hlt2 : start + size < text.length := by omega
      cases hrec : chunkLoop text size overlap (min text.length (start + size) - overlap) fuel with
      | none => rw [hrec] at hck; simp at hck
      | some cs' =>
        rw [hrec] at hck
        simp only [] at hck
        have hcs : cs = chunkPre text size start ++ cs' := by
          injection hck with hck'
          exact hck'.symm
        have hnext : min text.length (start + size) - overlap + overlap < text.length := by omega
        have ihlen := ih (min text.length (start + size) - overlap) cs' hnext hrec
        rw [hcs, hchunk, List.singleton_append, List.length_cons, ihlen]
        have harg : text.length - (min text.length (start + size) - overlap) - overlap
            = text.length - start - overlap - (size - overlap) := by omega
        rw [harg]
        have hys : size - overlap < text.length - start - overlap := by omega
        have h1 : text.length - start - overlap - (size - overlap) + (size - overlap) - 1
            = text.length - start - overlap - 1 := by omega
        have h2 : text.length - start - overlap + (size - overlap) - 1
            = text.length - start - overlap - 1 + (size - overlap) := by omega
        rw [h1, h2, Nat.add_div_right _ (by omega : 0 < size - overlap)]

/-- C3 counterexample: at text `"abc"` (length 3), size 10, overlap 5 — a
valid configuration with `0 <= overlap < size` — `chunk_text` produces one
chunk, while the claimed count `ceil((len(text) - overlap) / (size -
overlap)) = ceil(-2/5)` is 0. -/
theorem C3_chunk_count_counterexample :
    chunk_text "abc".data 10 5 = some ["abc".data] ∧
    ("abc".data).length = 3 ∧
    ¬ (((["abc".data] : List (List Char)).length : ℤ)
        = ⌈(((3 : ℚ) - 5) / ((10 : ℚ) - 5))⌉) := by
  have hceil : ⌈(((3 : ℚ) - 5) / ((10 : ℚ) - 5))⌉ = 0 := by
    rw [Int.ceil_eq_zero_iff, Set.mem_Ioc]
    norm_num
  refine ⟨rfl, rfl, ?_⟩
  rw [hceil]
  simp

/-- C3 as amended: under the additional hypothesis `overlap < len(text)`
(which the counterexample forces), the number of chunks equals
`ceil((len(text) - overlap) / (size - overlap))`, including at exact
multiples of `size - overlap`. -/
theorem C3_chunk_count (text : List Char) (size overlap : Nat)
    (h : overlap < size) (hlen : overlap < text.length) :
    ∃ cs, chunk_text text size overlap = some cs ∧
      ((cs.length : ℤ) = ⌈(((text.length : ℚ) - overlap) / ((size : ℚ) - overlap))⌉) := by
  obtain ⟨cs, h1, -, -, -, -⟩ :=
    chunkLoop_sound text size overlap h (text.length + 1) 0 (by omega)
  have hcount := chunkLoop_count text size overlap h (text.length + 1) 0 cs
    (by omega) h1
  simp only [Nat.sub_zero] at hcount
  refine ⟨cs, h1, ?_⟩
  have hcast1 : ((text.length : ℚ) - overlap) = ((text.length - overlap : ℕ) : ℚ) := by
    rw [Nat.cast_sub (le_of_lt hlen)]
  have hcast2 : ((size : ℚ) - overlap) = ((size - overlap : ℕ) : ℚ) := by
    rw [Nat.cast_sub (le_of_lt h)]
  set a := text.length - overlap with ha
  set s := size - overlap with hs'
  have h0s : 0 < s := by omega
  have h0a : 0 < a := by omega
  have hb1 : (a + s - 1) / s * s ≤ a + s - 1 := Nat.div_mul_le_self _ _
  have hb2 : a + s - 1 < (a + s - 1) / s * s + s := Nat.lt_div_mul_add h0s
  have hA : a ≤ (a + s - 1) / s * s ∧ (a + s - 1) / s * s < a + s := by
    generalize (a + s - 1) / s * s = t at hb1 hb2 ⊢
    omega
  have hsq : (0 : ℚ) < (s : ℚ) := by exact_mod_cast h0s
  obtain ⟨hA1, hA2⟩ := hA
  generalize hc : (a + s - 1) / s = c at hcount hA1 hA2
  have hq1 : ((a : ℚ)) ≤ (c : ℚ) * (s : ℚ) := by exact_mod_cast hA1
  have hq2 : ((c : ℚ)) * (s : ℚ) < (a : ℚ) + (s : ℚ) := by exact_mod_cast hA2
  rw [hcount, hcast1, hcast2]
  symm
  rw [Int.ceil_eq_iff]
  constructor
  · rw [lt_div_iff₀ hsq]
    push_cast
    nlinarith [hq1, hq2]
  · rw [div_le_iff₀ hsq]
    push_cast
    nlinarith [hq1, hq2]

/-- C3 witness for the amended count at text `"abcdefgh"` (length 8), size
3, overlap 1: four chunks, `ceil(7/2) = 4`. -/
theorem C3_chunk_count_witness :
    1 < 3 ∧ 1 < ("abcdefgh".data).length ∧
    ∃ cs, chunk_text "abcdefgh".data 3 1 = some cs ∧
      ((cs.length : ℤ)
        = ⌈(((("abcdefgh".data).length : ℚ) - 1) / ((3 : ℚ) - 1))⌉) :=
  ⟨by decide, by decide, C3_chunk_count "abcdefgh".data 3 1 (by decide) (by decide)⟩

/-- C4: the code neither rejects nor clamps `overlap >= size`.  At text
`"ab"`, size 1, overlap 1 the loop recomputes `start = max(0, 1 - 1) = 0`
forever: the fuel-indexed model never finishes for any amount of fuel, and
the loop's termination predicate is refutable at the initial state. -/
theorem C4_overlap_ge_size_loops_forever :
    (∀ fuel, chunkLoop "ab".data 1 1 0 fuel = none) ∧
    ¬ ChunkLoopTerm ("ab".data).length 1 1 0 := by
  constructor
  · intro fuel
    induction fuel with
    | zero => rfl
    | succ n ih =>
      have h2 : ("ab".data).length = 2 := rfl
      unfold chunkLoop
      rw [if_pos (by rw [h2]; omega), if_neg (by rw [h2]; omega)]
      have harg : min ("ab".data).length (0 + 1) - 1 = 0 := by rw [h2]; omega
      rw [harg, ih]
  · intro hterm
    have h2 : ("ab".data).length = 2 := rfl
    rw [h2] at hterm
    have key : ∀ st, ChunkLoopTerm 2 1 1 st → st = 0 → False := by
      intro st h'
      induction h' with
      | exit s hs => intro he; omega
      | last s h1 hmin => intro he; subst he; norm_num at hmin
      | step s h1 hmin hprem ih => intro he; subst he; exact ih (by norm_num)
    exact key 0 hterm rfl

/-- C7: given one score per candidate, the re-ranking step permutes its
input (same multiset); the sorted pair list is descending by score with
equal-score runs kept in original (pre-rerank) relative order; and when the
re-ranker is disabled, unavailable, or its scoring raised, the candidate
order is returned unchanged. -/
theorem C7_rerank_permutation (u avail : Bool) (cs : List Candidate) (ss : List ℚ)
    (hlen : ss.length = cs.length) :
    (rerank_step u avail (some ss) cs).Perm cs ∧
    rerank_step u avail none cs = cs ∧
    rerank_step false avail (some ss) cs = cs ∧
    rerank_step u false (some ss) cs = cs ∧
    (rerankedPairs cs ss).Pairwise (fun p q => q.2 ≤ p.2) ∧
    (∀ sub : List (Candidate × ℚ), sub.Sublist (cs.zip ss) →
      sub.Pairwise (fun p q => p.2 = q.2) → sub.Sublist (rerankedPairs cs ss)) := by
  have htrans : ∀ (a b c : Candidate × ℚ), decide (b.2 ≤ a.2) = true →
      decide (c.2 ≤ b.2) = true → decide (c.2 ≤ a.2) = true := by
    intro a b c h1 h2
    simp only [decide_eq_true_eq] at h1 h2 ⊢
    exact le_trans h2 h1
  have htotal : ∀ (a b : Candidate × ℚ),
      (decide (b.2 ≤ a.2) || decide (a.2 ≤ b.2)) = true := by
    intro a b
    simpa using le_total b.2 a.2
  refine ⟨?_, ?_, ?_, ?_, ?_, ?_⟩
  · unfold rerank_step
    split_ifs with hg
    · have hperm : (rerankedPairs cs ss).Perm (cs.zip ss) := List.mergeSort_perm _ _
      have hmap := hperm.map Prod.fst
      rw [List.map_fst_zip cs ss (le_of_eq hlen.symm)] at hmap
      exact hmap
    · exact List.Perm.refl cs
  · unfold rerank_step
    split_ifs <;> rfl
  · simp [rerank_step]
  · simp [rerank_step]
  · exact (List.sorted_mergeSort htrans htotal (cs.zip ss)).imp
      (fun h => of_decide_eq_true h)
  · intro sub hsub hpair
    exact List.sublist_mergeSort htrans htotal
      (hpair.imp (fun h => decide_eq_true (le_of_eq h.symm))) hsub

/-- C7 witness: two candidates with scores 1 and 2. -/
theorem C7_rerank_permutation_witness :
    ([(1 : ℚ), 2]).length = ([⟨"a", []⟩, ⟨"b", []⟩] : List Candidate).length ∧
    (rerank_step true true (some [(1 : ℚ), 2])
      [⟨"a", []⟩, ⟨"b", []⟩]).Perm [⟨"a", []⟩, ⟨"b", []⟩] :=
  ⟨rfl, (C7_rerank_permutation true true [⟨"a", []⟩, ⟨"b", []⟩] [(1 : ℚ), 2] rfl).1⟩

/-- C8 counterexample: with `pypdf` available, a pdf source whose parse
raises (modelled as `.error ()`) propagates the error out of `_read_text`
instead of returning `""` — only the raw-read fallback of lines 86-90 is
guarded by `try/except`. -/
theorem C8_extraction_error_propagates :
    read_text ".pdf" true true true (.ok "") (.error ()) (.ok "") (.ok "") = .error () := rfl

/-- C8 as amended: an unresolvable source path yields `""`, and whenever no
format-specific parser branch is selected (unsupported extension, or the
matching optional parser missing — which therefore degrades to the raw
read, not to `""`), extraction is total: a raw-read failure is caught and
yields `""`, a successful raw read is returned.  Errors inside a selected
html/pdf/docx parser branch, by contrast, propagate. -/
theorem C8_extraction_fallback (exi : String → Bool) (root rel : String)
    (reader : String → Except Unit String)
    (hres : resolve_source_path exi root rel = none)
    (ext : String) (b p d : Bool) (hr pr dr : Except Unit String) (s : String)
    (hsel : selectsParserBranch ext b p d = false) :
    read_text_from_source exi root rel reader = .ok "" ∧
    read_text ext b p d hr pr dr (.error ()) = .ok "" ∧
    read_text ext b p d hr pr dr (.ok s) = .ok s := by
  unfold selectsParserBranch at hsel
  simp only [Bool.or_eq_false_iff] at hsel
  obtain ⟨⟨h1, h2⟩, h3⟩ := hsel
  refine ⟨?_, ?_, ?_⟩
  · unfold read_text_from_source
    rw [hres]
  · unfold read_text
    rw [if_neg (by simp [h1]), if_neg (by simp [h2]), if_neg (by simp [h3])]
  · unfold read_text
    rw [if_neg (by simp [h1]), if_neg (by simp [h2]), if_neg (by simp [h3])]

/-- C8 witness: a `.txt` source with no parser branch selected, an
unresolvable path, and a failing raw read. -/
theorem C8_extraction_fallback_witness :
    resolve_source_path (fun _ => false) "root" "a.txt" = none ∧
    selectsParserBranch ".txt" true true true = false ∧
    read_text_from_source (fun _ => false) "root" "a.txt" (fun _ => .ok "x") = .ok "" ∧
    read_text ".txt" true true true (.ok "h") (.ok "p") (.ok "d") (.error ()) = .ok "" :=
  ⟨rfl, by decide,
   (C8_extraction_fallback (fun _ => false) "root" "a.txt" (fun _ => .ok "x") rfl
     ".txt" true true true (.ok "h") (.ok "p") (.ok "d") "s" (by decide)).1,
   (C8_extraction_fallback (fun _ => false) "root" "a.txt" (fun _ => .ok "x") rfl
     ".txt" true true true (.ok "h") (.ok "p") (.ok "d") "s" (by decide)).2.1⟩

theorem parseEntry_ok_of_complete (item : RawItem) (h : itemComplete item = true) :
    ∃ s, parseEntry item = .ok s := by
  obtain ⟨i, t, ty, p, c, sc⟩ := item
  cases i <;> cases t <;> cases ty <;> cases p <;>
    simp_all [parseEntry, itemComplete]

theorem parseEntry_err_of_incomplete (item : RawItem) (h : itemComplete item = false) :
    ∃ e, parseEntry item = .error e := by
  obtain ⟨i, t, ty, p, c, sc⟩ := item
  cases i <;> cases t <;> cases ty <;> cases p <;>
    simp_all [parseEntry, itemComplete]

theorem parseEntries_ok_of_all (items : List RawItem)
    (h : items.all itemComplete = true) : ∃ l, parseEntries items = .ok l := by
  induction items with
  | nil => exact ⟨[], rfl⟩
  | cons item rest ih =>
    rw [List.all_cons, Bool.and_eq_true] at h
    obtain ⟨s, hs⟩ := parseEntry_ok_of_complete item h.1
    obtain ⟨l, hl⟩ := ih h.2
    exact ⟨s :: l, by unfold parseEntries; rw [hs, hl]⟩

theorem parseEntries_err_of_not_all (items : List RawItem)
    (h : items.all itemComplete = false) : ∃ e, parseEntries items = .error e := by
  induction items with
  | nil => simp at h
  | cons item rest ih =>
    rw [List.all_cons, Bool.and_eq_false_iff] at h
    cases hc : itemComplete item with
    | false =>
      obtain ⟨e, he⟩ := parseEntry_err_of_incomplete item hc
      exact ⟨e, by unfold parseEntries; rw [he]⟩
    | true =>
      obtain ⟨s, hs⟩ := parseEntry_ok_of_complete item hc
      have hrest : rest.all itemComplete = false := by
        cases h with
        | inl h' => rw [hc] at h'; cases h'
        | inr h' => exact h'
      obtain ⟨e, he⟩ := ih hrest
      exact ⟨e, by unfold parseEntries; rw [hs, he]⟩

/-- C9: manifest loading fails exactly when the file is missing, the JSON
is malformed, or some source entry lacks one of the required fields `id`,
`title`, `type`, `path`; and a manifest whose only entry lacks `id` fails
with the missing-field error (so no sources are produced to index). -/
theorem C9_manifest_load_errors (file : Option (Except Unit (Option (List RawItem)))) :
    ((∃ e, SourcesManifest.load file = .error e) ↔ loadShouldFail file = true) ∧
    SourcesManifest.load
        (some (.ok (some [⟨none, some "ADGM Companies Regulations", some "Regulation",
          some "sources/companies.html", none, none⟩])))
      = .error (.missingField "id") := by
  constructor
  · cases file with
    | none => simp [SourcesManifest.load, loadShouldFail]
    | some f =>
      cases f with
      | error u => simp [SourcesManifest.load, loadShouldFail]
      | ok sources? =>
        cases hall : (sources?.getD []).all itemComplete with
        | true =>
          obtain ⟨l, hl⟩ := parseEntries_ok_of_all _ hall
          simp [SourcesManifest.load, loadShouldFail, hl, hall]
        | false =>
          obtain ⟨e, he⟩ := parseEntries_err_of_not_all _ hall
          simp [SourcesManifest.load, loadShouldFail, he, hall]
  · rfl
